import Mathlib

/-!
A shallow embedding of `src/leak_audit.py` (the "Leak Audit" plugin):
the noise classifier, the filtered referrer query, the bounded cycle-safe
backreference walker, the live-instance registry and the binding-deletion
helper, together with theorems settling the specification claims.

Python objects are modelled by the finitely many observations the audit
code makes of them (`PyObj`); the ambient object graph is a `Heap` mapping
object identities (`Nat`) to their data and to their `gc.get_referrers`
list.  Fallible Python operations are modelled with `Except Unit`.
-/

/-- `pre` is a prefix of `l` (computable, kernel-reducible). -/
def isPrefixL : List Char → List Char → Bool
  | [], _ => true
  | _ :: _, [] => false
  | a :: as, b :: bs => a == b && isPrefixL as bs

/-- `needle` occurs as a contiguous sublist of `hay`. -/
def containsSub (needle : List Char) : List Char → Bool
  | [] => needle.isEmpty
  | b :: bs => isPrefixL needle (b :: bs) || containsSub needle bs

/-- Python's substring test `needle in hay` on strings. -/
def pyIn (needle hay : String) : Bool :=
  containsSub needle.data hay.data

/-- Python's `hay.startswith(pre)`. -/
def pyStartsWith (hay pre : String) : Bool :=
  isPrefixL pre.data hay.data

/-- Python's `hay.endswith(post)`. -/
def pyEndsWith (hay post : String) : Bool :=
  isPrefixL post.data.reverse hay.data.reverse

/-- A Python object as seen by `leak_audit.py`: exactly the observations the
audit code makes of a candidate referrer.

* `className` / `classModule` model `obj.__class__.__name__` and
  `obj.__class__.__module__`.
* `isThread` models `isinstance(obj, threading.Thread)`.
* `threadName` models `getattr(obj, "name", None)` when that value is a `str`.
* `isInteractiveConsole` models `isinstance(obj, code.InteractiveConsole)`,
  `isCompleter` models `isinstance(obj, rlcompleter.Completer)`,
  `isTraceback` / `isFrame` model `isinstance(obj, types.TracebackType)` /
  `isinstance(obj, types.FrameType)`.
* `isDict` models `isinstance(obj, dict)`; `dictName` is the value of
  `obj.get("__name__", ...)` when it is a string, `dictKeys` the dict's keys.
* `isSeqContainer` models `isinstance(obj, (list, tuple, set, frozenset))`.
* `reprO` is the result of `repr(obj)`; `.error ()` means `repr` raises.
* `isCallerLocals` is used only by the spec-modelled variant of the referrer
  query (claim C7): it marks the mapping that is the calling frame's own
  local bindings, a notion the code itself never tests.
-/
structure PyObj where
  className : String := "object"
  classModule : String := "builtins"
  isThread : Bool := false
  threadName : Option String := none
  isInteractiveConsole : Bool := false
  isCompleter : Bool := false
  isTraceback : Bool := false
  isFrame : Bool := false
  isDict : Bool := false
  dictName : Option String := none
  dictKeys : List String := []
  isSeqContainer : Bool := false
  reprO : Except Unit String := Except.ok ""
  isCallerLocals : Bool := false

/-- `_typename(o)`: the dotted `module.ClassName` string. -/
def _typename (o : PyObj) : String :=
  o.classModule ++ "." ++ o.className

/-- `_is_interpreter_thread(obj)` from `src/leak_audit.py` lines 60-67. -/
def _is_interpreter_thread (obj : PyObj) : Bool :=
  (obj.isThread &&
    (pyIn "InterpreterThread" obj.className || pyIn "Interpreter" obj.className ||
      (match obj.threadName with
       | some n => pyIn "Interpreter" n
       | none => false))) ||
  pyIn "InterpreterThread" (_typename obj)

/-- `_is_interactive_console(obj)` from `src/leak_audit.py` lines 69-77. -/
def _is_interactive_console (obj : PyObj) : Bool :=
  obj.isInteractiveConsole || pyIn "code.InteractiveConsole" (_typename obj)

/-- `_is_completer(obj)` from `src/leak_audit.py` lines 79-88. -/
def _is_completer (obj : PyObj) : Bool :=
  obj.isCompleter || pyIn "rlcompleter.Completer" (_typename obj) ||
    pyEndsWith (_typename obj) ".Completer"

/-- `_is_tracebackish(obj)` from `src/leak_audit.py` lines 90-102. -/
def _is_tracebackish (obj : PyObj) : Bool :=
  obj.isTraceback || obj.isFrame ||
    pyStartsWith (_typename obj) "traceback." ||
    pyIn "TracebackException" (_typename obj) ||
    pyIn "StackSummary" (_typename obj) ||
    (obj.isDict && obj.dictName == some "traceback")

/-- The module-name denylist of the final dict check in `_is_console_noise`. -/
def consoleDictModules : List String :=
  ["__main__", "__console__", "code", "rlcompleter"]

/-- The final check of `_is_console_noise` (lines 120-123): a dict whose
`__name__` entry is one of the interactive/REPL module names. -/
def noiseDictCheck (ref : PyObj) : Bool :=
  ref.isDict && consoleDictModules.contains (ref.dictName.getD "")

/-- `_is_console_noise(ref)` from `src/leak_audit.py` lines 104-125.
The container heuristic (lines 115-118) calls `repr(ref)` with no
`try`/`except` around it, so a sequence container whose `repr` raises makes
the whole classifier raise: that path is the `.error` case here.  All other
operations the classifier performs are guarded in the source
(`_typename`, the guarded `isinstance` calls) and are total in the model. -/
def _is_console_noise (ref : PyObj) : Except Unit Bool :=
  if _is_tracebackish ref then Except.ok true
  else if _is_interactive_console ref then Except.ok true
  else if _is_completer ref then Except.ok true
  else if _is_interpreter_thread ref then Except.ok true
  else if ref.isSeqContainer then
    match ref.reprO with
    | Except.error e => Except.error e
    | Except.ok r =>
      if pyIn "live_bvs" r || pyIn "print_referrers" r || pyIn "inspect_bv" r then
        Except.ok true
      else
        Except.ok (noiseDictCheck ref)
  else
    Except.ok (noiseDictCheck ref)

/-- A generic object that matches no noise signature. -/
def plainObj : PyObj := {}

/-- A `BinaryView`-typed object (the tracked type); matches no noise signature. -/
def bvObj : PyObj :=
  { className := "BinaryView", classModule := "binaryninja.binaryview" }

/-- A sequence container whose `repr` raises. -/
def badReprList : PyObj :=
  { className := "list", isSeqContainer := true, reprO := Except.error () }

/-- The ambient object graph of the host process: object identities are `Nat`
(modelling `id(obj)`), `data` gives each object's observable state and
`referrers` models `gc.get_referrers(obj)`. -/
structure Heap where
  data : Nat → PyObj
  referrers : Nat → List Nat

/-- The keys whose presence makes `_iter_referrers_filtered` drop a dict
referrer (`src/leak_audit.py` lines 181-184). -/
def toolDictKeys : List String :=
  ["inspect_bv", "print_referrers", "_iter_referrers_filtered"]

/-- The secondary filter of `_iter_referrers_filtered`: a dict containing any
of the tool's own function names as a key is dropped. -/
def dropsAsToolDict (ref : PyObj) : Bool :=
  ref.isDict && toolDictKeys.any (fun k => ref.dictKeys.contains k)

/-- The body of the generator `_iter_referrers_filtered` run to completion
over a referrer list (as `list(...)` does in `walk`): noise referrers are
skipped, dict referrers containing a tool function name as key are dropped,
everything else is kept in order.  An exception raised by the classifier on
any element makes the whole enumeration raise (`list()` of a raising
generator yields nothing). -/
def filterReferrers (h : Heap) : List Nat → Except Unit (List Nat)
  | [] => Except.ok []
  | r :: rs =>
    match _is_console_noise (h.data r) with
    | Except.error e => Except.error e
    | Except.ok true => filterReferrers h rs
    | Except.ok false =>
      match filterReferrers h rs with
      | Except.error e => Except.error e
      | Except.ok rest =>
        Except.ok (if dropsAsToolDict (h.data r) then rest else r :: rest)

/-- `_iter_referrers_filtered(obj)` from `src/leak_audit.py` lines 176-187,
materialized as `list(...)` does at the call site. -/
def _iter_referrers_filtered (h : Heap) (obj : Nat) : Except Unit (List Nat) :=
  filterReferrers h (h.referrers obj)

/-- Modelled from the spec (§4.3): the spec describes the secondary filter as
dropping a namespace/mapping referrer exactly when that mapping is the
calling frame's own local bindings; `PyObj.isCallerLocals` marks that
property.  The code's actual secondary test is `dropsAsToolDict` (key
membership), which this definition exists to be compared against (claim C7). -/
def filterReferrersSpec (h : Heap) : List Nat → Except Unit (List Nat)
  | [] => Except.ok []
  | r :: rs =>
    match _is_console_noise (h.data r) with
    | Except.error e => Except.error e
    | Except.ok true => filterReferrersSpec h rs
    | Except.ok false =>
      match filterReferrersSpec h rs with
      | Except.error e => Except.error e
      | Except.ok rest =>
        Except.ok (if (h.data r).isDict && (h.data r).isCallerLocals then rest
                   else r :: rest)

/-- Modelled from the spec (§4.3): the referrer query as the spec words it,
with the secondary filter keyed on being the calling frame's local bindings. -/
def iterReferrersSpec (h : Heap) (obj : Nat) : Except Unit (List Nat) :=
  filterReferrersSpec h (h.referrers obj)

/-- The referrer list `walk` actually uses for a node
(`src/leak_audit.py` lines 202-205): an exception during enumeration is
caught and treated as zero referrers. -/
def refsOf (h : Heap) (node : Nat) : List Nat :=
  match _iter_referrers_filtered h node with
  | Except.error _ => []
  | Except.ok rs => rs

/-- What `walk` renders for one node: nothing (`pruned`, the `depth < 0`
early return), the cycle marker line, the
`[no non-console referrers]` leaf line, or an expansion carrying the true
referrer count, whether the truncation notice was printed, and one entry per
rendered child (the child's id together with what its recursive call
rendered). -/
inductive NodeOut : Type where
  | pruned : NodeOut
  | cycle : NodeOut
  | leaf : NodeOut
  | expanded : Nat → Bool → List (Nat × NodeOut) → NodeOut

/-- The `for i in range(limit)` loop of `walk`: renders one entry line per
child and recurses via `f` (the walker at the decremented depth), threading
the shared visited set through siblings left to right. -/
def walkKids (f : Nat → List Nat → List Nat × NodeOut) :
    List Nat → List Nat → List Nat × List (Nat × NodeOut)
  | [], seen => (seen, [])
  | r :: rs, seen =>
    let c := f r seen
    let rest := walkKids f rs c.1
    (rest.1, (r, c.2) :: rest.2)

/-- The recursive `walk(node, depth, indent)` of `print_referrers`
(`src/leak_audit.py` lines 193-237), with `fuel = depth + 1` so that
`fuel = 0` is exactly the source's `depth < 0` early return and children run
at `fuel - 1` (the source's `depth - 1`).  `seen` is the closure's shared
`seen_ids`; the returned first component is the updated visited set. -/
def walkN (h : Heap) (lim : Option Nat) : Nat → Nat → List Nat → List Nat × NodeOut
  | 0, _, seen => (seen, NodeOut.pruned)
  | fuel + 1, node, seen =>
    if seen.contains node then (seen, NodeOut.cycle)
    else
      let seen1 := node :: seen
      let refs := refsOf h node
      if refs.isEmpty then (seen1, NodeOut.leaf)
      else
        let total := refs.length
        let lmt := match lim with
          | none => total
          | some l => min l total
        let trunc := match lim with
          | none => false
          | some l => decide (l < total)
        let res := walkKids (walkN h lim fuel) (refs.take lmt) seen1
        (res.1, NodeOut.expanded total trunc res.2)

/-- `walk(node, depth, ...)` with the source's `Int`-valued depth: the walker
runs with `fuel = depth + 1`, so negative depth renders nothing. -/
def walk (h : Heap) (lim : Option Nat) (node : Nat) (depth : Int) (seen : List Nat) :
    List Nat × NodeOut :=
  walkN h lim (depth + 1).toNat node seen

/-- `print_referrers(obj, max_depth, per_node_limit)` from
`src/leak_audit.py` lines 189-239: a fresh empty visited set, then
`walk(obj, max_depth, "")`; the rendered tree is the result. -/
def print_referrers (h : Heap) (obj : Nat) (max_depth : Int)
    (per_node_limit : Option Nat) : NodeOut :=
  (walk h per_node_limit obj max_depth []).2

/-- The child entries of a rendered node. -/
def kidsOf : NodeOut → List (Nat × NodeOut)
  | NodeOut.expanded _ _ cs => cs
  | _ => []

/-- True for the `depth < 0` do-nothing result. -/
def isPrunedOut : NodeOut → Bool
  | NodeOut.pruned => true
  | _ => false

/-- All direct children of a rendered node are unexpanded terminals. -/
def allKidsUnexpanded (out : NodeOut) : Bool :=
  (kidsOf out).all (fun p => isPrunedOut p.2)

mutual
/-- Ids of every child entry rendered anywhere in a tree. -/
def entryIds : NodeOut → List Nat
  | NodeOut.expanded _ _ cs => entryIdsK cs
  | _ => []
/-- Ids of every entry rendered in a child list. -/
def entryIdsK : List (Nat × NodeOut) → List Nat
  | [] => []
  | (r, o) :: rest => r :: (entryIds o ++ entryIdsK rest)
end

/-- The managed runtime's object pool as `live_bvs` observes it: `objects`
models `gc.get_objects()` and `isBV` models
`isinstance(o, bn.binaryview.BinaryView)` (exact-or-subtype test). -/
structure GcState where
  objects : List Nat
  isBV : Nat → Bool

/-- `live_bvs()` from `src/leak_audit.py` lines 127-130: force a collection
pass first (`collect` is the runtime's `gc.collect` primitive, an arbitrary
state transition supplied by the runtime), then filter the post-collection
object pool down to the tracked type.  The post-collection state is returned
alongside so the claims can speak about it. -/
def live_bvs (collect : GcState → GcState) (s : GcState) : GcState × List Nat :=
  let s1 := collect s
  (s1, s1.objects.filter (fun o => s1.isBV o))

/-- A namespace as `kill_ref` observes it: a name (`module.__name__`), its
bindings, and which names the two removal mechanisms fail on
(`delattr` raising, resp. `del module.__dict__[name]` raising — some
namespace implementations restrict one or both). -/
structure PyNamespace where
  name : String
  binds : List (String × Nat)
  primaryFails : String → Bool
  secondaryFails : String → Bool

/-- `hasattr(module, varname)` / a subsequent lookup of the name. -/
def hasBinding (ns : PyNamespace) (v : String) : Bool :=
  ns.binds.any (fun p => p.1 == v)

/-- Removal of a binding from the namespace. -/
def removeBinding (ns : PyNamespace) (v : String) : PyNamespace :=
  { ns with binds := ns.binds.filter (fun p => p.1 != v) }

/-- The reported outcome of `kill_ref`: which log line ran.  Every run of
`kill_ref` produces exactly one of these — no exception escapes. -/
inductive KillOutcome : Type where
  | deletedPrimary : KillOutcome
  | deletedSecondary : KillOutcome
  | failedBoth : KillOutcome
  | notFound : KillOutcome

/-- `kill_ref(varname, module)` from `src/leak_audit.py` lines 260-276:
if the name is bound, try `delattr`; on failure fall back to
`del module.__dict__[varname]`; on failure of both, log the error and leave
the namespace unchanged.  If unbound, report not-found.  The trailing
`gc.collect()` does not affect bindings and is not modelled. -/
def kill_ref (ns : PyNamespace) (v : String) : PyNamespace × KillOutcome :=
  if hasBinding ns v then
    if ns.primaryFails v then
      if ns.secondaryFails v then (ns, KillOutcome.failedBoth)
      else (removeBinding ns v, KillOutcome.deletedSecondary)
    else (removeBinding ns v, KillOutcome.deletedPrimary)
  else (ns, KillOutcome.notFound)

/-- Heap for the C1 counterexample: the root `0` has the single non-noise
referrer `1`. -/
def heapC1 : Heap where
  data := fun _ => plainObj
  referrers := fun n => if n = 0 then [1] else []

/-- Heap with a two-cycle `0 ↔ 1` (A references B, B references A). -/
def cycHeap : Heap where
  data := fun _ => plainObj
  referrers := fun n => if n = 0 then [1] else if n = 1 then [0] else []

/-- Heap whose root `0` has three non-noise referrers `1`, `2`, `3`. -/
def heapC3 : Heap where
  data := fun _ => plainObj
  referrers := fun n => if n = 0 then [1, 2, 3] else []

/-- Heap whose root `0` has a single referrer, a stack frame (noise). -/
def heapC5 : Heap where
  data := fun n => if n = 1 then { className := "frame", isFrame := true } else plainObj
  referrers := fun n => if n = 0 then [1] else []

/-- Heap whose root `0` has a referrer whose classifier raises (a container
with a raising `repr`), so enumerating the root's referrers raises. -/
def heapC6 : Heap where
  data := fun n => if n = 1 then badReprList else plainObj
  referrers := fun n => if n = 0 then [1] else []

/-- Heap for C7: the root `0`'s only referrer is a user dict that contains
the key `"inspect_bv"` but is not the calling frame's local bindings. -/
def heapC7 : Heap where
  data := fun n =>
    if n = 1 then
      { className := "dict", isDict := true, dictKeys := ["inspect_bv"],
        isCallerLocals := false }
    else plainObj
  referrers := fun n => if n = 0 then [1] else []

/-- The predicate characterizing which referrers `_iter_referrers_filtered`
keeps: classified as non-noise, and not a dict containing one of the tool's
own function names as a key. -/
def keepRef (h : Heap) (r : Nat) : Bool :=
  (match _is_console_noise (h.data r) with
   | Except.ok false => true
   | _ => false) && ! dropsAsToolDict (h.data r)

/-- A namespace in which both removal mechanisms succeed (an ordinary module
namespace), binding `x`. -/
def nsOk : PyNamespace where
  name := "__main__"
  binds := [("x", 3)]
  primaryFails := fun _ => false
  secondaryFails := fun _ => false

/-- A namespace in which both removal mechanisms fail on the bound name `x`
(realizable e.g. as a class namespace with `x` inherited from a base class:
`delattr` raises `AttributeError` and deleting from the `mappingproxy`
`__dict__` raises `TypeError`). -/
def nsBoth : PyNamespace where
  name := "Cls"
  binds := [("x", 7)]
  primaryFails := fun _ => true
  secondaryFails := fun _ => true

/-- A concrete post-collection runtime state for the registry claim: objects
`0` and `2` are tracked-type instances, `1` is not. -/
def gcAfter : GcState where
  objects := [0, 1, 2]
  isBV := fun n => n == 0 || n == 2

/-- A collection primitive that reaches `gcAfter` from any state. -/
def collectConst : GcState → GcState := fun _ => gcAfter

-- ------------------------------------------------------------------
-- Helper lemmas
-- ------------------------------------------------------------------

theorem walkKids_length (f : Nat → List Nat → List Nat × NodeOut) :
    ∀ kids seen, ((walkKids f kids seen).2).length = kids.length := by
  intro kids
  induction kids with
  | nil => intro seen; rfl
  | cons r rs ih => intro seen; simp [walkKids, ih]

theorem walkKids_map_fst (f : Nat → List Nat → List Nat × NodeOut) :
    ∀ kids seen, ((walkKids f kids seen).2).map Prod.fst = kids := by
  intro kids
  induction kids with
  | nil => intro seen; rfl
  | cons r rs ih => intro seen; simp [walkKids, ih]

theorem walkKids_pruned :
    ∀ kids seen, walkKids (fun (_ : Nat) (s : List Nat) => (s, NodeOut.pruned)) kids seen =
      (seen, kids.map (fun r => (r, NodeOut.pruned))) := by
  intro kids
  induction kids with
  | nil => intro seen; rfl
  | cons r rs ih =>
    intro seen
    simp only [walkKids]
    rw [ih]
    rfl

theorem mem_filterReferrers (h : Heap) :
    ∀ l res, filterReferrers h l = Except.ok res →
      ∀ r ∈ res, _is_console_noise (h.data r) = Except.ok false := by
  intro l
  induction l with
  | nil =>
    intro res hres r hr
    simp only [filterReferrers] at hres
    cases hres
    simp at hr
  | cons x xs ih =>
    intro res hres r hr
    simp only [filterReferrers] at hres
    split at hres
    · cases hres
    · exact ih res hres r hr
    · rename_i heq
      split at hres
      · cases hres
      · rename_i rest heq2
        split at hres
        · cases hres
          exact ih _ heq2 r hr
        · cases hres
          rcases List.mem_cons.mp hr with hx | hx
          · subst hx; exact heq
          · exact ih _ heq2 r hx

theorem mem_refsOf (h : Heap) (node r : Nat) (hr : r ∈ refsOf h node) :
    _is_console_noise (h.data r) = Except.ok false := by
  unfold refsOf at hr
  cases hres : _iter_referrers_filtered h node with
  | error e => rw [hres] at hr; simp at hr
  | ok rs =>
    rw [hres] at hr
    exact mem_filterReferrers h (h.referrers node) rs hres r hr

theorem filterReferrers_all_noise (h : Heap) :
    ∀ l, (∀ r ∈ l, _is_console_noise (h.data r) = Except.ok true) →
      filterReferrers h l = Except.ok [] := by
  intro l
  induction l with
  | nil => intro _; rfl
  | cons x xs ih =>
    intro hall
    have hx := hall x (List.mem_cons_self x xs)
    simp only [filterReferrers, hx]
    exact ih (fun r hr => hall r (List.mem_cons_of_mem x hr))

theorem walkKids_nodup (f : Nat → List Nat → List Nat × NodeOut)
    (hf : ∀ r s, s.Nodup → (f r s).1.Nodup) :
    ∀ kids seen, seen.Nodup → (walkKids f kids seen).1.Nodup := by
  intro kids
  induction kids with
  | nil => intro seen hseen; exact hseen
  | cons r rs ih =>
    intro seen hseen
    simp only [walkKids]
    exact ih (f r seen).1 (hf r seen hseen)

theorem walkN_fst_nodup (h : Heap) (lim : Option Nat) :
    ∀ fuel node seen, seen.Nodup → (walkN h lim fuel node seen).1.Nodup := by
  intro fuel
  induction fuel with
  | zero => intro node seen hseen; exact hseen
  | succ fuel ih =>
    intro node seen hseen
    simp only [walkN]
    by_cases hc : seen.contains node = true
    · rw [if_pos hc]; exact hseen
    · rw [if_neg hc]
      have hnode : node ∉ seen := by
        intro hmem
        exact hc (List.elem_eq_true_of_mem hmem)
      have hseen1 : (node :: seen).Nodup := List.nodup_cons.mpr ⟨hnode, hseen⟩
      by_cases hemp : (refsOf h node).isEmpty = true
      · rw [if_pos hemp]; exact hseen1
      · rw [if_neg hemp]
        exact walkKids_nodup (walkN h lim fuel) (fun r s hs => ih r s hs) _ _ hseen1

theorem walkKids_entry_noise (h : Heap) (f : Nat → List Nat → List Nat × NodeOut)
    (hf : ∀ r s i, i ∈ entryIds (f r s).2 → _is_console_noise (h.data i) = Except.ok false) :
    ∀ kids seen, (∀ r ∈ kids, _is_console_noise (h.data r) = Except.ok false) →
      ∀ i ∈ entryIdsK (walkKids f kids seen).2, _is_console_noise (h.data i) = Except.ok false := by
  intro kids
  induction kids with
  | nil => intro seen _ i hi; simp [walkKids, entryIdsK] at hi
  | cons r rs ih =>
    intro seen hkids i hi
    simp only [walkKids, entryIdsK] at hi
    rcases List.mem_cons.mp hi with hir | hi2
    · subst hir; exact hkids i (List.mem_cons_self i rs)
    · rcases List.mem_append.mp hi2 with hif | hik
      · exact hf r seen i hif
      · exact ih _ (fun x hx => hkids x (List.mem_cons_of_mem r hx)) i hik

theorem walkN_entry_noise (h : Heap) (lim : Option Nat) :
    ∀ fuel node seen i, i ∈ entryIds (walkN h lim fuel node seen).2 →
      _is_console_noise (h.data i) = Except.ok false := by
  intro fuel
  induction fuel with
  | zero => intro node seen i hi; simp [walkN, entryIds] at hi
  | succ fuel ih =>
    intro node seen i hi
    simp only [walkN] at hi
    by_cases hc : seen.contains node = true
    · rw [if_pos hc] at hi; simp [entryIds] at hi
    · rw [if_neg hc] at hi
      by_cases hemp : (refsOf h node).isEmpty = true
      · rw [if_pos hemp] at hi; simp [entryIds] at hi
      · rw [if_neg hemp] at hi
        simp only [entryIds] at hi
        refine walkKids_entry_noise h (walkN h lim fuel)
          (fun r s j hj => ih r s j hj) _ _ ?_ i hi
        intro r hr
        exact mem_refsOf h node r (List.take_subset _ _ hr)

theorem hasBinding_removeBinding (ns : PyNamespace) (v : String) :
    hasBinding (removeBinding ns v) v = false := by
  simp only [hasBinding, removeBinding]
  rw [List.any_eq_false]
  intro p hp
  rcases List.mem_filter.mp hp with ⟨_, hne⟩
  simp only [bne_iff_ne, ne_eq] at hne
  simp [hne]

theorem filterReferrers_eq_filter (h : Heap) :
    ∀ l, (∀ r ∈ l, _is_console_noise (h.data r) ≠ Except.error ()) →
      filterReferrers h l = Except.ok (l.filter (keepRef h)) := by
  intro l
  induction l with
  | nil => intro _; rfl
  | cons x xs ih =>
    intro hok
    have hx := hok x (List.mem_cons_self x xs)
    have hxs : ∀ r ∈ xs, _is_console_noise (h.data r) ≠ Except.error () :=
      fun r hr => hok r (List.mem_cons_of_mem x hr)
    simp only [filterReferrers]
    cases hnoise : _is_console_noise (h.data x) with
    | error e => cases e; exact absurd hnoise hx
    | ok b =>
      rw [ih hxs]
      cases b with
      | true =>
        have hkx : keepRef h x = false := by simp [keepRef, hnoise]
        simp [List.filter_cons, hkx]
      | false =>
        by_cases hdrop : dropsAsToolDict (h.data x) = true
        · have hkx : keepRef h x = false := by simp [keepRef, hnoise, hdrop]
          simp [List.filter_cons, hkx, hdrop]
        · have hkx : keepRef h x = true := by simp [keepRef, hnoise, hdrop]
          simp [List.filter_cons, hkx, hdrop]

-- ------------------------------------------------------------------
-- Claim theorems
-- ------------------------------------------------------------------

/-- Claim C1, counterexample.  The claim says `walk(root, max_depth=0, *)`
renders exactly one node (the root) with zero children regardless of how many
non-noise referrers exist.  On `heapC1` the root `0` has one non-noise
referrer, and the depth-0 walk renders it as a child entry line (the source
prints the entry line before recursing with depth `-1`), so the rendered
root has one child, not zero. -/
theorem print_referrers_depth0_cex :
    print_referrers heapC1 0 0 (some 20) =
      NodeOut.expanded 1 false [(1, NodeOut.pruned)] ∧
    (kidsOf (print_referrers heapC1 0 0 (some 20))).length ≠ 0 :=
  ⟨rfl, by decide⟩

/-- Claim C1, amended.  With `max_depth = 0` the walker expands only the
root: it renders the root's direct (filtered) referrers as entry lines, but
recurses into none of them — every rendered child is the `depth < 0`
do-nothing result, for every heap, per-node limit and root. -/
theorem print_referrers_depth0_unexpanded (h : Heap) (lim : Option Nat) (root : Nat) :
    allKidsUnexpanded (print_referrers h root 0 lim) = true := by
  show allKidsUnexpanded (walkN h lim (0 + 1) root []).2 = true
  simp only [walkN]
  rw [show (([] : List Nat).contains root) = false from rfl]
  simp only [Bool.false_eq_true, if_false]
  by_cases hemp : (refsOf h root).isEmpty = true
  · rw [if_pos hemp]; rfl
  · rw [if_neg hemp]
    rw [walkKids_pruned]
    simp only [allKidsUnexpanded, kidsOf, List.all_eq_true]
    intro p hp
    rcases List.mem_map.mp hp with ⟨r, _, rfl⟩
    rfl

/-- Claim C2.  The walker is cycle-safe: (1) a node whose identity is
already in the visited set is rendered as the terminal cycle marker and is
not re-expanded (its referrers are not enumerated, the visited set is
unchanged); (2) the visited set — which receives exactly one entry per
expansion, i.e. per referrer enumeration — never acquires duplicates, so
each object identity is expanded at most once per traversal.  Termination
is witnessed by `walk` being a total function of the embedding. -/
theorem walk_cycle_safe (h : Heap) (lim : Option Nat) :
    (∀ node depth seen, 0 ≤ depth → seen.contains node = true →
        walk h lim node depth seen = (seen, NodeOut.cycle)) ∧
    (∀ node depth seen, seen.Nodup → (walk h lim node depth seen).1.Nodup) := by
  constructor
  · intro node depth seen hd hc
    unfold walk
    rw [show (depth + 1).toNat = depth.toNat + 1 by omega]
    simp only [walkN]
    rw [hc]
    simp
  · intro node depth seen hs
    exact walkN_fst_nodup h lim _ node seen hs

/-- Claim C2, witness: on the two-cycle heap `0 ↔ 1`, a repeat encounter of
`1` renders the cycle marker, and the full traversal from `0` visits without
duplicates (and terminates, the walk being evaluated below). -/
theorem walk_cycle_safe_witness :
    walk cycHeap (some 20) 1 2 [1] = ([1], NodeOut.cycle) ∧
      (walk cycHeap (some 20) 0 3 []).1.Nodup :=
  ⟨(walk_cycle_safe cycHeap (some 20)).1 1 2 [1] (by decide) (by decide),
   (walk_cycle_safe cycHeap (some 20)).2 0 3 [] List.nodup_nil⟩

/-- Claim C3.  A node with `l + k` (k > 0) filtered referrers, expanded
under per-node limit `l`, is rendered with the truncation notice carrying
the true total `l + k`, and exactly `l` children. -/
theorem walk_truncates (h : Heap) (l k node : Nat) (depth : Int) (seen : List Nat)
    (hd : 0 ≤ depth) (hs : seen.contains node = false)
    (hlen : (refsOf h node).length = l + k) (hk : 0 < k) :
    ∃ cs, (walk h (some l) node depth seen).2 = NodeOut.expanded (l + k) true cs ∧
      cs.length = l := by
  unfold walk
  rw [show (depth + 1).toNat = depth.toNat + 1 by omega]
  simp only [walkN]
  rw [hs]
  simp only [Bool.false_eq_true, if_false]
  have hne : (refsOf h node).isEmpty = false := by
    cases hre : refsOf h node with
    | nil => rw [hre] at hlen; simp at hlen; omega
    | cons a as => rfl
  rw [hne]
  simp only [Bool.false_eq_true, if_false]
  rw [hlen]
  have hmin : min l (l + k) = l := by omega
  have hdec : decide (l < l + k) = true := decide_eq_true (by omega)
  rw [hmin, hdec]
  refine ⟨_, rfl, ?_⟩
  rw [walkKids_length, List.length_take, hlen, hmin]

/-- Claim C3, witness: the root of `heapC3` has `2 + 1` filtered referrers;
walked with limit 2 it renders the true total 3 with exactly 2 children. -/
theorem walk_truncates_witness :
    ∃ cs, (walk heapC3 (some 2) 0 1 []).2 = NodeOut.expanded (2 + 1) true cs ∧
      cs.length = 2 :=
  walk_truncates heapC3 2 1 0 1 [] (by decide) rfl rfl (by decide)

/-- Claim C4 (code bug).  The spec's contract for the noise classifier is
that it is total and never raises, treating internal failures as
"not noise"; but `_is_console_noise` calls `repr(ref)` unguarded in its
container heuristic (`src/leak_audit.py` line 116), so a sequence container
whose `repr` raises makes the classifier itself raise. -/
theorem is_console_noise_raises_on_bad_repr :
    _is_console_noise badReprList = Except.error () := rfl

/-- Claim C5.  (1) Every id rendered as a child entry anywhere in a walk
tree is classified non-noise — no object matching a noise signature appears
as a node; (2) a node all of whose referrers are noise is rendered as the
`[no non-console referrers]` leaf rather than as referencing the noise
objects. -/
theorem walk_excludes_noise (h : Heap) (lim : Option Nat) (node : Nat) (depth : Int)
    (seen : List Nat) :
    (∀ i ∈ entryIds (walk h lim node depth seen).2,
        _is_console_noise (h.data i) = Except.ok false) ∧
    (0 ≤ depth → seen.contains node = false →
      (∀ r ∈ h.referrers node, _is_console_noise (h.data r) = Except.ok true) →
      (walk h lim node depth seen).2 = NodeOut.leaf) := by
  constructor
  · intro i hi
    exact walkN_entry_noise h lim _ node seen i hi
  · intro hd hs hall
    unfold walk
    rw [show (depth + 1).toNat = depth.toNat + 1 by omega]
    simp only [walkN]
    rw [hs]
    simp only [Bool.false_eq_true, if_false]
    have hrefs : refsOf h node = [] := by
      unfold refsOf _iter_referrers_filtered
      rw [filterReferrers_all_noise h _ hall]
    rw [hrefs]
    simp

/-- Claim C5, witness: on `heapC5`, whose root's only referrer is a stack
frame (noise), no rendered entry is noise and the root renders as a Leaf. -/
theorem walk_excludes_noise_witness :
    (∀ i ∈ entryIds (walk heapC5 (some 20) 0 3 []).2,
        _is_console_noise (heapC5.data i) = Except.ok false) ∧
      (walk heapC5 (some 20) 0 3 []).2 = NodeOut.leaf := by
  refine ⟨(walk_excludes_noise heapC5 (some 20) 0 3 []).1, ?_⟩
  refine (walk_excludes_noise heapC5 (some 20) 0 3 []).2 (by decide) rfl ?_
  intro r hr
  rw [show heapC5.referrers 0 = [1] from rfl] at hr
  rw [List.mem_singleton.mp hr]
  rfl

/-- Claim C6.  If enumerating a node's referrers raises, the exception is
caught locally: the node is treated as having zero referrers and rendered as
a Leaf; and the traversal continues — a sibling list containing such a node
still renders an entry for every listed child. -/
theorem walk_enum_error_leaf (h : Heap) (lim : Option Nat) (node : Nat) (depth : Int)
    (seen : List Nat) (fuel : Nat) (rest : List Nat)
    (hd : 0 ≤ depth) (hs : seen.contains node = false)
    (he : _iter_referrers_filtered h node = Except.error ()) :
    (walk h lim node depth seen).2 = NodeOut.leaf ∧
      ((walkKids (walkN h lim fuel) (node :: rest) seen).2).length = rest.length + 1 := by
  constructor
  · unfold walk
    rw [show (depth + 1).toNat = depth.toNat + 1 by omega]
    simp only [walkN]
    rw [hs]
    simp only [Bool.false_eq_true, if_false]
    have hrefs : refsOf h node = [] := by
      unfold refsOf
      rw [he]
    rw [hrefs]
    simp
  · rw [walkKids_length]
    rfl

/-- Claim C6, witness: on `heapC6` the root's referrer enumeration raises
(the classifier raises on a bad-`repr` container), the root renders as a
Leaf, and a sibling list containing the root still renders both entries. -/
theorem walk_enum_error_leaf_witness :
    (walk heapC6 (some 20) 0 3 []).2 = NodeOut.leaf ∧
      ((walkKids (walkN heapC6 (some 20) 3) (0 :: [5]) []).2).length = [5].length + 1 :=
  walk_enum_error_leaf heapC6 (some 20) 0 3 [] 3 [5] (by decide) rfl rfl

/-- Claim C7, counterexample.  The claim says the secondary filter drops a
mapping referrer exactly when it is the calling frame's own local bindings.
On `heapC7` the root's only referrer is a user dict containing the key
`"inspect_bv"` that is not the calling frame's locals and is non-noise: the
code drops it anyway, diverging from the spec-modelled query. -/
theorem iter_referrers_caller_locals_cex :
    _iter_referrers_filtered heapC7 0 = Except.ok [] ∧
    iterReferrersSpec heapC7 0 = Except.ok [1] ∧
    _is_console_noise (heapC7.data 1) = Except.ok false ∧
    (heapC7.data 1).isCallerLocals = false ∧
    _iter_referrers_filtered heapC7 0 ≠ iterReferrersSpec heapC7 0 := by
  refine ⟨rfl, rfl, rfl, rfl, ?_⟩
  intro hcontra
  rw [show _iter_referrers_filtered heapC7 0 = Except.ok [] from rfl,
      show iterReferrersSpec heapC7 0 = Except.ok [1] from rfl] at hcontra
  simp at hcontra

/-- Claim C7, amended.  When no referrer makes the classifier raise, the
referrer query yields exactly the referrers that are non-noise and are not
dicts containing one of the tool's own function names
(`inspect_bv`, `print_referrers`, `_iter_referrers_filtered`) as a key —
the secondary filter is keyed on those key names, not on being the calling
frame's local bindings. -/
theorem iter_referrers_keeps_exactly (h : Heap) (obj : Nat)
    (hok : ∀ r ∈ h.referrers obj, _is_console_noise (h.data r) ≠ Except.error ()) :
    _iter_referrers_filtered h obj = Except.ok ((h.referrers obj).filter (keepRef h)) :=
  filterReferrers_eq_filter h (h.referrers obj) hok

/-- Claim C7, witness for the amended claim, on the `heapC7` dict referrer. -/
theorem iter_referrers_keeps_exactly_witness :
    _iter_referrers_filtered heapC7 0 =
      Except.ok ((heapC7.referrers 0).filter (keepRef heapC7)) :=
  iter_referrers_keeps_exactly heapC7 0 (by
    intro r hr
    rw [show heapC7.referrers 0 = [1] from rfl] at hr
    rw [List.mem_singleton.mp hr]
    rw [show _is_console_noise (heapC7.data 1) = Except.ok false from rfl]
    simp)

/-- Claim C8.  `live_bvs` forces the collection pass first and then scans
the post-collection object pool: (1) its result is exactly the
post-collection objects filtered to the tracked type; (2) an object is in
the result iff it is in the post-collection pool and is a tracked-type
instance; (3) under the runtime's contract that `gc.get_objects()` lists
each live object once, every pooled tracked-type object appears exactly
once in the result. -/
theorem live_bvs_exactly_tracked (collect : GcState → GcState) (s : GcState) (o : Nat) :
    (live_bvs collect s).2 = (collect s).objects.filter (fun x => (collect s).isBV x) ∧
    (o ∈ (live_bvs collect s).2 ↔ o ∈ (collect s).objects ∧ (collect s).isBV o = true) ∧
    ((collect s).objects.Nodup → o ∈ (collect s).objects → (collect s).isBV o = true →
      (live_bvs collect s).2.count o = 1) := by
  refine ⟨rfl, ?_, ?_⟩
  · simp [live_bvs, List.mem_filter]
  · intro hnd hmem hbv
    have hmf : o ∈ (live_bvs collect s).2 := by
      simp [live_bvs, List.mem_filter, hmem, hbv]
    have hndf : ((live_bvs collect s).2).Nodup := by
      simp only [live_bvs]
      exact hnd.filter _
    exact List.count_eq_one_of_mem hndf hmf

/-- Claim C8, witness: with the concrete collection primitive reaching
`gcAfter`, the tracked object `0` appears exactly once. -/
theorem live_bvs_exactly_tracked_witness :
    (live_bvs collectConst gcAfter).2.count 0 = 1 :=
  (live_bvs_exactly_tracked collectConst gcAfter 0).2.2 (by decide) (by decide) (by decide)

/-- Claim C9, counterexample.  The claim says a bound name is always
removed (primary mechanism, then fallback).  In `nsBoth` — realizable as a
class namespace with an inherited attribute, where `delattr` raises and the
`mappingproxy` `__dict__` rejects deletion — `x` is bound, both mechanisms
fail, `kill_ref` reports the failure, and the binding survives: a
subsequent lookup still succeeds. -/
theorem kill_ref_bound_removal_cex :
    hasBinding nsBoth "x" = true ∧
    kill_ref nsBoth "x" = (nsBoth, KillOutcome.failedBoth) ∧
    hasBinding (kill_ref nsBoth "x").1 "x" = true :=
  ⟨rfl, rfl, rfl⟩

/-- Claim C9, amended.  `kill_ref` never propagates a failure (it totally
returns one of the four reported outcomes), and: (1) if the name is bound
and at least one of the two removal mechanisms succeeds, the binding is
removed and a subsequent lookup fails; (2) if the name is bound and both
mechanisms fail, the failure is reported and the namespace is unchanged;
(3) if the name is unbound, it reports not-found and changes nothing. -/
theorem kill_ref_outcomes (ns : PyNamespace) (v : String) :
    (hasBinding ns v = true → (ns.primaryFails v = false ∨ ns.secondaryFails v = false) →
        hasBinding (kill_ref ns v).1 v = false) ∧
    (hasBinding ns v = true → ns.primaryFails v = true → ns.secondaryFails v = true →
        kill_ref ns v = (ns, KillOutcome.failedBoth)) ∧
    (hasBinding ns v = false → kill_ref ns v = (ns, KillOutcome.notFound)) := by
  refine ⟨?_, ?_, ?_⟩
  · intro hb hor
    unfold kill_ref
    rw [hb]
    rcases hor with hp | hs2
    · rw [hp]
      simp [hasBinding_removeBinding]
    · by_cases hp : ns.primaryFails v = true
      · rw [hp, hs2]
        simp [hasBinding_removeBinding]
      · simp only [Bool.not_eq_true] at hp
        rw [hp]
        simp [hasBinding_removeBinding]
  · intro hb hp hs2
    unfold kill_ref
    rw [hb, hp, hs2]
    simp
  · intro hb
    unfold kill_ref
    rw [hb]
    simp

/-- Claim C9, witness: in an ordinary module namespace the bound name is
removed and then fails lookup, and an unbound name reports not-found. -/
theorem kill_ref_outcomes_witness :
    hasBinding (kill_ref nsOk "x").1 "x" = false ∧
      kill_ref nsOk "y" = (nsOk, KillOutcome.notFound) :=
  ⟨(kill_ref_outcomes nsOk "x").1 rfl (Or.inl rfl),
   (kill_ref_outcomes nsOk "y").2.2 rfl⟩

/-- Claim C10.  With `per_node_limit = None` an expanded node's fan-out is
unbounded: no truncation notice is emitted (the truncation flag is `false`)
and the rendered children are exactly all filtered referrers, in order,
each recursed into. -/
theorem walk_no_limit (h : Heap) (node : Nat) (depth : Int) (seen : List Nat)
    (hd : 0 ≤ depth) (hs : seen.contains node = false)
    (hne : refsOf h node ≠ []) :
    ∃ cs, (walk h none node depth seen).2 =
        NodeOut.expanded (refsOf h node).length false cs ∧
      cs.map Prod.fst = refsOf h node := by
  unfold walk
  rw [show (depth + 1).toNat = depth.toNat + 1 by omega]
  simp only [walkN]
  rw [hs]
  simp only [Bool.false_eq_true, if_false]
  have hemp : (refsOf h node).isEmpty = false := by
    cases hre : refsOf h node with
    | nil => exact absurd hre hne
    | cons a as => rfl
  rw [hemp]
  simp only [Bool.false_eq_true, if_false]
  rw [List.take_length]
  exact ⟨_, rfl, walkKids_map_fst _ _ _⟩

/-- Claim C10, witness: walking `heapC3`'s root with no limit renders all
three referrers with no truncation. -/
theorem walk_no_limit_witness :
    ∃ cs, (walk heapC3 none 0 1 []).2 =
        NodeOut.expanded (refsOf heapC3 0).length false cs ∧
      cs.map Prod.fst = refsOf heapC3 0 :=
  walk_no_limit heapC3 0 1 [] (by decide) rfl (by decide)
